import Mathlib

/-!
A shallow embedding of the core game logic of spotle-tui (src/main.rs):
the mask table, two-pass guess evaluation (Row::from_current), keyboard
letter-state aggregation and the input state machine of run_app, together
with theorems checking the specification's claims about them.

Strings are embedded as lists of chars; Rust's byte-oriented String::len
is embedded as the UTF-8 byte length of the char list.  Rust array
indexing that would panic out of range is totalised with List.getD or
List.set (no-op out of range); in-boundedness of all accesses performed
on reachable states is proved separately.
-/

/-- Per-cell feedback state, mirroring enum CharacterState in main.rs. -/
inductive CharacterState where
  | WrongPlace
  | Correct
  | NotInWord
  | Unknown
  | Masked
  deriving DecidableEq

/-- Overall game outcome, mirroring enum GameState; Lost carries the answer. -/
inductive GameState where
  | InProgress
  | Won
  | Lost (answer : List Char)
  deriving DecidableEq

/-- One attempt row, mirroring struct Row: guessed text and per-position states.
The Rust field is a fixed [CharacterState; 5]; the embedding uses a list that is
always built with exactly five entries. -/
structure Row where
  guess : List Char
  char_states : List CharacterState
  deriving DecidableEq

/-- The mask table, mirroring struct Mask { items: [bool; 25] }. -/
structure Mask where
  items : List Bool
  deriving DecidableEq

/-- Mask::get_mask: self.items[(row_idx * 5) + char_idx]. -/
def Mask.get_mask (m : Mask) (row_idx char_idx : Nat) : Bool :=
  m.items.getD (row_idx * 5 + char_idx) false

/-- Mask::default: the shipped 5x5 mask pattern. -/
def Mask.default : Mask :=
  ⟨[false, false, true, false, false,
    false, true, false, false, false,
    false, true, false, false, false,
    false, false, true, false, false,
    false, false, true, false, false]⟩

/-- Row::new: a fresh row whose cells are Masked where the mask says so,
otherwise Unknown; the guess text starts as the single space " ". -/
def Row.new (mask : Mask) (row_idx : Nat) : Row :=
  { guess := [' ']
    char_states := (List.range 5).map fun x =>
      if mask.get_mask row_idx x then CharacterState.Masked else CharacterState.Unknown }

/-- The 26-way letter dispatch shared by App::get_letter_state and
App::set_letter_state in main.rs: lowercase letters map to their index in
key_status, everything else falls through to the default arm. -/
def letterIdx (c : Char) : Option Nat :=
  if c = 'a' then some 0 else if c = 'b' then some 1 else if c = 'c' then some 2
  else if c = 'd' then some 3 else if c = 'e' then some 4 else if c = 'f' then some 5
  else if c = 'g' then some 6 else if c = 'h' then some 7 else if c = 'i' then some 8
  else if c = 'j' then some 9 else if c = 'k' then some 10 else if c = 'l' then some 11
  else if c = 'm' then some 12 else if c = 'n' then some 13 else if c = 'o' then some 14
  else if c = 'p' then some 15 else if c = 'q' then some 16 else if c = 'r' then some 17
  else if c = 's' then some 18 else if c = 't' then some 19 else if c = 'u' then some 20
  else if c = 'v' then some 21 else if c = 'w' then some 22 else if c = 'x' then some 23
  else if c = 'y' then some 24 else if c = 'z' then some 25 else none

/-- The letter a given key_status index stands for (inverse of letterIdx). -/
def letterOf (i : Nat) : Char :=
  ['a', 'b', 'c', 'd', 'e', 'f', 'g', 'h', 'i', 'j', 'k', 'l', 'm',
   'n', 'o', 'p', 'q', 'r', 's', 't', 'u', 'v', 'w', 'x', 'y', 'z'].getD i ' '

/-- Read a letter's entry of a key_status table (App::get_letter_state's body,
factored over the table): non-letters read as Unknown. -/
def getLetter (ks : List CharacterState) (c : Char) : CharacterState :=
  match letterIdx c with
  | some i => ks.getD i CharacterState.Unknown
  | none => CharacterState.Unknown

/-- Write a letter's entry of a key_status table (App::set_letter_state's body,
factored over the table): non-letters are a no-op. -/
def setLetter (ks : List CharacterState) (c : Char) (st : CharacterState) :
    List CharacterState :=
  match letterIdx c with
  | some i => ks.set i st
  | none => ks

/-- App holds the state of the application (struct App, minus the purely
presentational theme field). -/
structure App where
  input : List Char
  guesses : List Row
  correct_word : List Char
  current_guess : Nat
  key_status : List CharacterState
  state : GameState
  mask : Mask
  deriving DecidableEq

/-- App::get_letter_state. -/
def App.get_letter_state (app : App) (c : Char) : CharacterState :=
  getLetter app.key_status c

/-- App::set_letter_state. -/
def App.set_letter_state (app : App) (c : Char) (st : CharacterState) : App :=
  { app with key_status := setLetter app.key_status c st }

/-- UTF-8 byte length of a char list: what Rust's String::len returns. -/
def utf8Len (s : List Char) : Nat :=
  (s.map Char.utf8Size).sum

/-- valid_guess: s.len() == 5, a byte-length check. -/
def valid_guess (s : List Char) : Bool :=
  if utf8Len s = 5 then true else false

/-- Enumerate a list with indices starting at n (Rust's .enumerate() with n = 0). -/
def enumFrom (n : Nat) : List α → List (Nat × α)
  | [] => []
  | a :: as => (n, a) :: enumFrom (n + 1) as

/-- The char-state evaluation inside Row::from_current, over the fields it
reads (the mask, the current attempt index, the secret and the buffer): start
all Unknown, pass 1 marks Correct at unmasked positions where guess and secret
agree, pass 2 marks still-Unknown unmasked positions WrongPlace or NotInWord
by a whole-word containment check. -/
def evalStates (mask : Mask) (cg : Nat) (correct input : List Char) :
    List CharacterState :=
  let s0 := List.replicate 5 CharacterState.Unknown
  let s1 := (enumFrom 0 (correct.zip input)).foldl
    (fun st p =>
      if mask.get_mask cg p.1 = false then
        if p.2.1 = p.2.2 then st.set p.1 CharacterState.Correct else st
      else st) s0
  (enumFrom 0 input).foldl
    (fun st p =>
      if mask.get_mask cg p.1 = false then
        if st.getD p.1 CharacterState.Unknown = CharacterState.Unknown then
          if correct.contains p.2 then st.set p.1 CharacterState.WrongPlace
          else st.set p.1 CharacterState.NotInWord
        else st
      else st) s1

/-- The char-state evaluation inside Row::from_current, on an App. -/
def Row.from_current_states (app : App) : List CharacterState :=
  evalStates app.mask app.current_guess app.correct_word app.input

/-- Row::from_current(&mut app): builds the evaluated row from the current
input and drains the input buffer. -/
def Row.from_current (app : App) : Row × App :=
  ({ guess := app.input, char_states := Row.from_current_states app },
   { app with input := [] })

/-- The first keyboard loop of the Enter arm in run_app, over the fields it
reads: at every unmasked position where guess and secret agree, the guessed
letter's keyboard entry is set to Correct. -/
def kbPass1 (mask : Mask) (cg : Nat) (correct input : List Char)
    (ks0 : List CharacterState) : List CharacterState :=
  (enumFrom 0 (correct.zip input)).foldl
    (fun ks p =>
      if mask.get_mask cg p.1 = false then
        if p.2.1 = p.2.2 then setLetter ks p.2.2 CharacterState.Correct else ks
      else ks) ks0

/-- The second keyboard loop of the Enter arm in run_app, over the fields it
reads: at every unmasked position, a letter whose keyboard entry is still
Unknown is set to WrongPlace or NotInWord by the whole-word containment
check. -/
def kbPass2 (mask : Mask) (cg : Nat) (correct input : List Char)
    (ks0 : List CharacterState) : List CharacterState :=
  (enumFrom 0 input).foldl
    (fun ks p =>
      if mask.get_mask cg p.1 = false then
        if getLetter ks p.2 = CharacterState.Unknown then
          if correct.contains p.2 then setLetter ks p.2 CharacterState.WrongPlace
          else setLetter ks p.2 CharacterState.NotInWord
        else ks
      else ks) ks0

/-- The first keyboard loop, on an App. -/
def keyboardPass1 (app : App) : App :=
  { app with key_status :=
      kbPass1 app.mask app.current_guess app.correct_word app.input app.key_status }

/-- The second keyboard loop, on an App. -/
def keyboardPass2 (app : App) : App :=
  { app with key_status :=
      kbPass2 app.mask app.current_guess app.correct_word app.input app.key_status }

/-- The whole Enter arm of run_app: if the buffer passes valid_guess, run the
two keyboard loops, set Won on full equality with the secret, replace the row
at the current attempt index with the evaluated row (draining the buffer),
increment the attempt index, and declare Lost when it reaches 5 without a win;
otherwise do nothing. -/
def submit (app : App) : App :=
  if valid_guess app.input then
    let a1 : App := keyboardPass2 (keyboardPass1 app)
    let a2 : App := if a1.correct_word = a1.input then { a1 with state := GameState.Won } else a1
    let p : Row × App := Row.from_current a2
    let a3 : App := { p.2 with guesses := p.2.guesses.set p.2.current_guess p.1 }
    let a4 : App := { a3 with current_guess := a3.current_guess + 1 }
    if a4.current_guess = 5 ∧ a4.state ≠ GameState.Won then
      { a4 with state := GameState.Lost a4.correct_word }
    else a4
  else app

/-- The input signals the run_app event loop dispatches on. -/
inductive InputEvent where
  | enter
  | char (c : Char)
  | backspace
  | esc
  | other

/-- Rust's char::to_ascii_lowercase: shifts only ASCII uppercase letters. -/
def to_ascii_lowercase (c : Char) : Char :=
  if 'A' ≤ c ∧ c ≤ 'Z' then Char.ofNat (c.toNat + 32) else c

/-- One iteration of the run_app event loop as a state transformer: Enter
submits; a character is appended (lowercased) only while the game is in
progress, the char is not a space, the buffer's byte length is below 5 and
the attempt index is below 5 (outside InProgress a char is at most the quit
signal, which leaves the state unchanged); Backspace pops the last char;
Esc quits, leaving the state unchanged. -/
def step (app : App) : InputEvent → App
  | InputEvent.enter => submit app
  | InputEvent.char c =>
      if app.state = GameState.InProgress then
        if c ≠ ' ' ∧ utf8Len app.input < 5 ∧ app.current_guess < 5 then
          { app with input := app.input ++ [to_ascii_lowercase c] }
        else app
      else app
  | InputEvent.backspace => { app with input := app.input.dropLast }
  | InputEvent.esc => app
  | InputEvent.other => app

/-- App::default: empty buffer, five fresh rows built from the default mask,
attempt index 0, secret "world", all keyboard letters Unknown, InProgress. -/
def App.default : App :=
  { input := []
    guesses := [Row.new Mask.default 0, Row.new Mask.default 1, Row.new Mask.default 2,
                Row.new Mask.default 3, Row.new Mask.default 4]
    correct_word := "world".toList
    current_guess := 0
    key_status := List.replicate 26 CharacterState.Unknown
    state := GameState.InProgress
    mask := Mask.default }

/-- Run a list of input events from a state. -/
def runEvents (app : App) (events : List InputEvent) : App :=
  events.foldl step app

/-- Type a word (one char event per character) and press Enter. -/
def typeWord (g : List Char) : List InputEvent :=
  g.map InputEvent.char ++ [InputEvent.enter]

/-- The states the event loop can reach from the default initial state. -/
inductive Reachable : App → Prop where
  | init : Reachable App.default
  | next {s : App} (e : InputEvent) : Reachable s → Reachable (step s e)

/-- A mask with every cell false (the all-false mask of the spec scenarios). -/
def allFalseMask : Mask :=
  ⟨List.replicate 25 false⟩

/-- A game with the all-false mask and secret "world", as in the spec
scenarios; the buffer already holds the guess g. -/
def allFalseApp (g : List Char) : App :=
  { input := g
    guesses := [Row.new allFalseMask 0, Row.new allFalseMask 1, Row.new allFalseMask 2,
                Row.new allFalseMask 3, Row.new allFalseMask 4]
    correct_word := "world".toList
    current_guess := 0
    key_status := List.replicate 26 CharacterState.Unknown
    state := GameState.InProgress
    mask := allFalseMask }

/-- The state invariant maintained by every event: five rows, attempt index
at most 5, an empty buffer outside InProgress, a non-InProgress outcome once
the attempt index reaches 5, and the mask fixed at the default table. -/
def AppInv (s : App) : Prop :=
  s.guesses.length = 5 ∧
  s.current_guess ≤ 5 ∧
  (s.state ≠ GameState.InProgress → s.input = []) ∧
  (5 ≤ s.current_guess → s.state ≠ GameState.InProgress) ∧
  s.mask = Mask.default

/-! Helper lemmas about lists, the letter dispatch and folds. -/

lemma getD_replicate {α : Type} (n i : Nat) (a : α) :
    (List.replicate n a).getD i a = a := by
  rw [List.getD_eq_getElem?_getD]
  rcases h : (List.replicate n a)[i]? with _ | b
  · rfl
  · rw [List.eq_of_mem_replicate (List.getElem?_mem h)]
    rfl

lemma getD_set_self {α : Type} (l : List α) (i : Nat) (a d : α) (h : i < l.length) :
    (l.set i a).getD i d = a := by
  rw [List.getD_eq_getElem?_getD, List.getElem?_set_self h]
  rfl

lemma getD_set_ne {α : Type} (l : List α) {i j : Nat} (a d : α) (h : i ≠ j) :
    (l.set i a).getD j d = l.getD j d := by
  rw [List.getD_eq_getElem?_getD, List.getElem?_set_ne h, List.getD_eq_getElem?_getD]

lemma letterIdx_eq {c : Char} {i : Nat} (h : letterIdx c = some i) :
    c = letterOf i ∧ i < 26 := by
  by_cases hc : c ∈ ['a', 'b', 'c', 'd', 'e', 'f', 'g', 'h', 'i', 'j', 'k', 'l', 'm',
      'n', 'o', 'p', 'q', 'r', 's', 't', 'u', 'v', 'w', 'x', 'y', 'z']
  · simp only [List.mem_cons, List.not_mem_nil, or_false] at hc
    rcases hc with rfl | rfl | rfl | rfl | rfl | rfl | rfl | rfl | rfl | rfl | rfl | rfl | rfl |
      rfl | rfl | rfl | rfl | rfl | rfl | rfl | rfl | rfl | rfl | rfl | rfl | rfl <;>
      (injection h with h; subst h; decide)
  · exfalso
    simp only [List.mem_cons, List.not_mem_nil, or_false, not_or] at hc
    obtain ⟨h1, h2, h3, h4, h5, h6, h7, h8, h9, h10, h11, h12, h13, h14, h15, h16, h17, h18,
      h19, h20, h21, h22, h23, h24, h25, h26⟩ := hc
    unfold letterIdx at h
    rw [if_neg h1, if_neg h2, if_neg h3, if_neg h4, if_neg h5, if_neg h6, if_neg h7, if_neg h8,
      if_neg h9, if_neg h10, if_neg h11, if_neg h12, if_neg h13, if_neg h14, if_neg h15,
      if_neg h16, if_neg h17, if_neg h18, if_neg h19, if_neg h20, if_neg h21, if_neg h22,
      if_neg h23, if_neg h24, if_neg h25, if_neg h26] at h
    cases h

lemma getLetter_setLetter_keep (ks : List CharacterState) (c d : Char) (v : CharacterState)
    (h : getLetter ks c = v) : getLetter (setLetter ks d v) c = v := by
  rcases hd : letterIdx d with _ | j
  · simp only [setLetter, hd]
    exact h
  · rcases hc : letterIdx c with _ | i
    · simp only [getLetter, hc] at h
      simp only [getLetter, setLetter, hd, hc]
      exact h
    · simp only [getLetter, hc] at h
      simp only [getLetter, setLetter, hd, hc]
      by_cases hij : i = j
      · subst hij
        by_cases hlen : i < ks.length
        · exact getD_set_self ks i v CharacterState.Unknown hlen
        · rw [List.set_eq_of_length_le (Nat.le_of_not_lt hlen)]
          exact h
      · rw [getD_set_ne ks v CharacterState.Unknown (fun e => hij e.symm)]
        exact h

lemma getLetter_setLetter_ne (ks : List CharacterState) (v : CharacterState) {c d : Char}
    (h : c ≠ d) : getLetter (setLetter ks d v) c = getLetter ks c := by
  rcases hd : letterIdx d with _ | j
  · simp only [setLetter, hd]
  · rcases hc : letterIdx c with _ | i
    · simp only [getLetter, setLetter, hd, hc]
    · have hij : j ≠ i := by
        intro e
        subst e
        obtain ⟨e1, _⟩ := letterIdx_eq hc
        obtain ⟨e2, _⟩ := letterIdx_eq hd
        exact h (e1.trans e2.symm)
      simp only [getLetter, setLetter, hd, hc]
      exact getD_set_ne ks v CharacterState.Unknown hij

lemma foldl_preserves {α β : Type} {P : α → Prop} (f : α → β → α) (l : List β) (a : α)
    (h0 : P a) (hstep : ∀ x b, b ∈ l → P x → P (f x b)) : P (l.foldl f a) := by
  induction l generalizing a with
  | nil => exact h0
  | cons b t ih =>
      simp only [List.foldl_cons]
      exact ih (f a b) (hstep a b (by simp) h0)
        (fun x b2 hb2 px => hstep x b2 (by simp [hb2]) px)

lemma mem_enumFrom {α : Type} {l : List α} {n : Nat} {p : Nat × α}
    (h : p ∈ enumFrom n l) : n ≤ p.1 ∧ l[p.1 - n]? = some p.2 := by
  induction l generalizing n with
  | nil => simp [enumFrom] at h
  | cons a t ih =>
      simp only [enumFrom, List.mem_cons] at h
      rcases h with rfl | h
      · simp
      · obtain ⟨h1, h2⟩ := ih h
        refine ⟨by omega, ?_⟩
        have e : p.1 - n = (p.1 - (n + 1)) + 1 := by omega
        rw [e]
        simpa using h2

lemma zip_getElem? {α β : Type} {l1 : List α} {l2 : List β} {i : Nat} {p : α × β}
    (h : (l1.zip l2)[i]? = some p) : l1[i]? = some p.1 ∧ l2[i]? = some p.2 := by
  induction l1 generalizing l2 i with
  | nil => simp at h
  | cons a t ih =>
      cases l2 with
      | nil => simp at h
      | cons b u =>
          cases i with
          | zero =>
              simp only [List.zip_cons_cons, List.getElem?_cons_zero, Option.some.injEq] at h
              subst h
              simp
          | succ k =>
              simp only [List.zip_cons_cons, List.getElem?_cons_succ] at h ⊢
              exact ih h

/-! Projection lemmas for submit and the event step. -/

lemma submit_of_invalid {s : App} (h : valid_guess s.input = false) : submit s = s := by
  simp [submit, h]

lemma submit_input_of_valid {s : App} (hv : valid_guess s.input = true) :
    (submit s).input = [] := by
  simp [submit, hv, Row.from_current, apply_ite App.input]

lemma submit_current_guess_of_valid {s : App} (hv : valid_guess s.input = true) :
    (submit s).current_guess = s.current_guess + 1 := by
  simp [submit, hv, Row.from_current, keyboardPass1, keyboardPass2,
    apply_ite App.current_guess]

lemma submit_mask_of_valid {s : App} (hv : valid_guess s.input = true) :
    (submit s).mask = s.mask := by
  simp [submit, hv, Row.from_current, keyboardPass1, keyboardPass2, apply_ite App.mask]

lemma submit_correct_word_of_valid {s : App} (hv : valid_guess s.input = true) :
    (submit s).correct_word = s.correct_word := by
  simp [submit, hv, Row.from_current, keyboardPass1, keyboardPass2,
    apply_ite App.correct_word]

lemma submit_key_status_of_valid {s : App} (hv : valid_guess s.input = true) :
    (submit s).key_status =
      kbPass2 s.mask s.current_guess s.correct_word s.input
        (kbPass1 s.mask s.current_guess s.correct_word s.input s.key_status) := by
  simp [submit, hv, Row.from_current, keyboardPass1, keyboardPass2, apply_ite App.key_status]

lemma submit_guesses_length_of_valid {s : App} (hv : valid_guess s.input = true) :
    (submit s).guesses.length = s.guesses.length := by
  simp [submit, hv, Row.from_current, keyboardPass1, keyboardPass2, apply_ite App.guesses]

lemma submit_state_terminal {s : App} (hv : valid_guess s.input = true)
    (h5 : s.current_guess + 1 = 5) : (submit s).state ≠ GameState.InProgress := by
  simp only [submit, hv]
  simp [Row.from_current, keyboardPass1, keyboardPass2, apply_ite App.state,
    apply_ite App.current_guess]
  split
  · simp
  · split
    · simp
    · simp_all

lemma submit_guesses_of_valid {s : App} (hv : valid_guess s.input = true) :
    (submit s).guesses = s.guesses.set s.current_guess
      { guess := s.input,
        char_states := evalStates s.mask s.current_guess s.correct_word s.input } := by
  simp [submit, hv, Row.from_current, Row.from_current_states, keyboardPass1, keyboardPass2,
    apply_ite App.guesses, apply_ite App.input, apply_ite App.current_guess,
    apply_ite App.mask, apply_ite App.correct_word, apply_ite Row.from_current_states]

/-! Monotonicity and frame lemmas for the keyboard loops. -/

lemma kbPass1_correct_mono (mask : Mask) (cg : Nat) (correct input : List Char)
    (ks0 : List CharacterState) (c : Char)
    (h : getLetter ks0 c = CharacterState.Correct) :
    getLetter (kbPass1 mask cg correct input ks0) c = CharacterState.Correct := by
  refine foldl_preserves (P := fun ks => getLetter ks c = CharacterState.Correct)
    _ _ _ h (fun ks p _ hp => ?_)
  dsimp only
  split
  · split
    · exact getLetter_setLetter_keep ks c p.2.2 CharacterState.Correct hp
    · exact hp
  · exact hp

lemma kbPass2_correct_mono (mask : Mask) (cg : Nat) (correct input : List Char)
    (ks0 : List CharacterState) (c : Char)
    (h : getLetter ks0 c = CharacterState.Correct) :
    getLetter (kbPass2 mask cg correct input ks0) c = CharacterState.Correct := by
  refine foldl_preserves (P := fun ks => getLetter ks c = CharacterState.Correct)
    _ _ _ h (fun ks p _ hp => ?_)
  dsimp only
  split
  case isTrue hmask =>
    split
    case isTrue hg =>
      have hne : c ≠ p.2 := by
        intro e
        rw [← e, hp] at hg
        cases hg
      split
      · rw [getLetter_setLetter_ne ks CharacterState.WrongPlace hne]
        exact hp
      · rw [getLetter_setLetter_ne ks CharacterState.NotInWord hne]
        exact hp
    case isFalse _ => exact hp
  case isFalse _ => exact hp

lemma kbPass1_frame (mask : Mask) (cg : Nat) (correct input : List Char)
    (ks0 : List CharacterState) (c : Char)
    (hocc : ∀ i, i < input.length → mask.get_mask cg i = false → input.getD i ' ' ≠ c) :
    getLetter (kbPass1 mask cg correct input ks0) c = getLetter ks0 c := by
  refine foldl_preserves (P := fun ks => getLetter ks c = getLetter ks0 c)
    _ _ _ rfl (fun ks p hmem hp => ?_)
  dsimp only
  obtain ⟨-, hget⟩ := mem_enumFrom hmem
  obtain ⟨h1, h2⟩ := zip_getElem? (by simpa using hget)
  split
  case isTrue hmask =>
    split
    case isTrue heq =>
      have hlt : p.1 < input.length := (List.getElem?_eq_some_iff.mp h2).1
      have hval : input.getD p.1 ' ' = p.2.2 := by
        rw [List.getD_eq_getElem?_getD, h2]
        rfl
      have hne : c ≠ p.2.2 := fun e => hocc p.1 hlt hmask (hval.trans e.symm)
      rw [getLetter_setLetter_ne ks CharacterState.Correct hne]
      exact hp
    case isFalse _ => exact hp
  case isFalse _ => exact hp

lemma kbPass2_frame (mask : Mask) (cg : Nat) (correct input : List Char)
    (ks0 : List CharacterState) (c : Char)
    (hocc : ∀ i, i < input.length → mask.get_mask cg i = false → input.getD i ' ' ≠ c) :
    getLetter (kbPass2 mask cg correct input ks0) c = getLetter ks0 c := by
  refine foldl_preserves (P := fun ks => getLetter ks c = getLetter ks0 c)
    _ _ _ rfl (fun ks p hmem hp => ?_)
  dsimp only
  obtain ⟨-, hget⟩ := mem_enumFrom hmem
  have h2 : input[p.1]? = some p.2 := by simpa using hget
  split
  case isTrue hmask =>
    have hlt : p.1 < input.length := (List.getElem?_eq_some_iff.mp h2).1
    have hval : input.getD p.1 ' ' = p.2 := by
      rw [List.getD_eq_getElem?_getD, h2]
      rfl
    have hne : c ≠ p.2 := fun e => hocc p.1 hlt hmask (hval.trans e.symm)
    split
    · split
      · rw [getLetter_setLetter_ne ks CharacterState.WrongPlace hne]
        exact hp
      · rw [getLetter_setLetter_ne ks CharacterState.NotInWord hne]
        exact hp
    · exact hp
  case isFalse _ => exact hp

/-! The reachability invariant of the event loop. -/

lemma appInv_init : AppInv App.default := by
  refine ⟨rfl, by decide, fun h => absurd rfl h, fun h => by simp [App.default] at h, rfl⟩

lemma valid_input_ne_nil {l : List Char} (hv : valid_guess l = true) : l ≠ [] := by
  intro e
  subst e
  simp [valid_guess, utf8Len] at hv

lemma appInv_step {s : App} (e : InputEvent) (h : AppInv s) : AppInv (step s e) := by
  obtain ⟨h1, h2, h3, h4, h5⟩ := h
  cases e with
  | enter =>
      show AppInv (submit s)
      cases hv : valid_guess s.input with
      | false =>
          rw [submit_of_invalid hv]
          exact ⟨h1, h2, h3, h4, h5⟩
      | true =>
          have hip : s.state = GameState.InProgress := by
            by_contra hni
            exact valid_input_ne_nil hv (h3 hni)
          have hcg : s.current_guess < 5 := by
            by_contra hge
            exact absurd hip (h4 (Nat.le_of_not_lt hge))
          refine ⟨?_, ?_, ?_, ?_, ?_⟩
          · rw [submit_guesses_length_of_valid hv]
            exact h1
          · rw [submit_current_guess_of_valid hv]
            omega
          · intro _
            exact submit_input_of_valid hv
          · intro hge
            rw [submit_current_guess_of_valid hv] at hge
            exact submit_state_terminal hv (by omega)
          · rw [submit_mask_of_valid hv]
            exact h5
  | char c =>
      simp only [step]
      split
      case isTrue hip =>
        split
        case isTrue hcond =>
          refine ⟨h1, h2, ?_, ?_, h5⟩
          · intro hni
            exact absurd hip hni
          · intro hge
            have hge2 : 5 ≤ s.current_guess := hge
            exact absurd hcond.2.2 (by omega)
        case isFalse _ => exact ⟨h1, h2, h3, h4, h5⟩
      case isFalse _ => exact ⟨h1, h2, h3, h4, h5⟩
  | backspace =>
      refine ⟨h1, h2, ?_, h4, h5⟩
      intro hni
      show s.input.dropLast = []
      rw [h3 hni]
      rfl
  | esc => exact ⟨h1, h2, h3, h4, h5⟩
  | other => exact ⟨h1, h2, h3, h4, h5⟩

theorem reachable_inv {s : App} (h : Reachable s) : AppInv s := by
  induction h with
  | init => exact appInv_init
  | next e _ ih => exact appInv_step e ih

/-! Helper lemmas for the claim theorems. -/

lemma submit_state_won {s : App} (hv : valid_guess s.input = true)
    (heq : s.correct_word = s.input) : (submit s).state = GameState.Won := by
  simp [submit, hv, heq, Row.from_current, keyboardPass1, keyboardPass2,
    apply_ite App.state, apply_ite App.current_guess]

lemma allFalse_get_mask (cg i : Nat) : allFalseMask.get_mask cg i = false := by
  simp only [allFalseMask, Mask.get_mask]
  exact getD_replicate 25 (cg * 5 + i) false

lemma length_eq_five {α : Type} {w : List α} (h : w.length = 5) :
    ∃ a b c d e, w = [a, b, c, d, e] := by
  rcases w with _ | ⟨a, _ | ⟨b, _ | ⟨c, _ | ⟨d, _ | ⟨e, t⟩⟩⟩⟩⟩ <;> simp at h
  subst h
  exact ⟨a, b, c, d, e, rfl⟩

lemma evalStates_allFalse_self (cg : Nat) (w : List Char) (hlen : w.length = 5) :
    evalStates allFalseMask cg w w = List.replicate 5 CharacterState.Correct := by
  obtain ⟨a, b, c, d, e, rfl⟩ := length_eq_five hlen
  simp [evalStates, enumFrom, allFalse_get_mask, List.set]

lemma reachable_runEvents (s : App) (evs : List InputEvent) (h : Reachable s) :
    Reachable (runEvents s evs) := by
  induction evs generalizing s with
  | nil => exact h
  | cons e t ih => exact ih _ (Reachable.next e h)

/-! The claim theorems. -/

/-- Claim C1, the code evaluated at the failing input: with the default mask,
cell (attempt 0, position 2) is masked and reads Masked before any submission,
but after submitting the guess "abcde" the stored row's state at position 2 is
Unknown, not Masked: Row::from_current rebuilds the row from all-Unknown and
skips masked positions in both passes, so the Masked marking of Row::new is
lost at submission, contradicting the claim that the cell is Masked both
before and after. -/
theorem c1_masked_cell_lost_on_submit :
    Mask.default.get_mask 0 2 = true ∧
    (App.default.guesses.getD 0 (Row.new Mask.default 0)).char_states.getD 2
      CharacterState.Unknown = CharacterState.Masked ∧
    ((runEvents App.default [InputEvent.char 'a', InputEvent.char 'b', InputEvent.char 'c',
        InputEvent.char 'd', InputEvent.char 'e', InputEvent.enter]).guesses.getD 0
      (Row.new Mask.default 0)).char_states.getD 2 CharacterState.Unknown =
      CharacterState.Unknown ∧
    CharacterState.Unknown ≠ CharacterState.Masked := by decide

/-- Claim C2: with the all-false mask and secret "world", submitting the guess
"wordl" yields per-position states Correct, Correct, Correct, WrongPlace,
WrongPlace, the outcome stays InProgress and the attempt index becomes 1. -/
theorem c2_wordl_scenario :
    (step (allFalseApp "wordl".toList) InputEvent.enter).guesses.getD 0
      (Row.new allFalseMask 0) =
      { guess := "wordl".toList,
        char_states := [CharacterState.Correct, CharacterState.Correct,
          CharacterState.Correct, CharacterState.WrongPlace, CharacterState.WrongPlace] } ∧
    (step (allFalseApp "wordl".toList) InputEvent.enter).state = GameState.InProgress ∧
    (step (allFalseApp "wordl".toList) InputEvent.enter).current_guess = 1 := by decide

/-- Claim C3 counterexample: with the default configuration, after five
submitted guesses "aaaaa" (none equal to the secret) the outcome is already
Lost("world") and the attempt index is 5, so the game is lost before any sixth
guess could be submitted: the maximum number of attempts is 5, not 6. -/
theorem c3_counterexample_lost_after_five :
    (runEvents App.default (List.flatten (List.replicate 5 (typeWord "aaaaa".toList)))).state =
      GameState.Lost "world".toList ∧
    (runEvents App.default
      (List.flatten (List.replicate 5 (typeWord "aaaaa".toList)))).current_guess = 5 := by
  decide

/-- Claim C3 as amended: the default maximum number of attempts is 5: with the
default configuration (secret "world"), a player can submit 5 consecutive
guesses; after each of the first four submitted non-matching guesses the game
is still InProgress with the attempt index equal to the number of submissions,
and after exactly 5 submitted guesses none equal to the secret the outcome is
Lost("world") (and not before the 5th). -/
theorem c3_amended_five_attempts :
    (∀ n, n < 5 → n ≠ 0 →
      (runEvents App.default
        (List.flatten (List.replicate n (typeWord "aaaaa".toList)))).state =
        GameState.InProgress ∧
      (runEvents App.default
        (List.flatten (List.replicate n (typeWord "aaaaa".toList)))).current_guess = n) ∧
    (runEvents App.default (List.flatten (List.replicate 5 (typeWord "aaaaa".toList)))).state =
      GameState.Lost "world".toList := by decide

/-- Claim C4: for every secret word of length 5 (necessarily of byte length 5
to be submittable) and a guess equal to it, with an all-false mask, submission
sets every position of the stored row to Correct and the outcome to Won, at
whatever attempt index (below the row count, as the Rust row indexing
requires) the submission happens. -/
theorem c4_guess_equals_secret_wins (s : App) (w : List Char) (hlen : w.length = 5)
    (hby : utf8Len w = 5) (hcw : s.correct_word = w) (hin : s.input = w)
    (hmask : s.mask = allFalseMask) (hcg : s.current_guess < 5)
    (hgl : s.guesses.length = 5) :
    (submit s).state = GameState.Won ∧
    ((submit s).guesses.getD s.current_guess (Row.new allFalseMask 0)).char_states =
      List.replicate 5 CharacterState.Correct := by
  have hv : valid_guess s.input = true := by
    rw [hin]
    simp [valid_guess, hby]
  refine ⟨submit_state_won hv (hcw.trans hin.symm), ?_⟩
  rw [submit_guesses_of_valid hv]
  rw [getD_set_self s.guesses s.current_guess _ _ (by omega)]
  show evalStates s.mask s.current_guess s.correct_word s.input = _
  rw [hmask, hcw, hin]
  exact evalStates_allFalse_self s.current_guess w hlen

/-- Witness for claim C4 at the concrete input "world", attempt index 0. -/
theorem c4_witness :
    ("world".toList.length = 5 ∧ utf8Len "world".toList = 5 ∧
     (allFalseApp "world".toList).correct_word = "world".toList ∧
     (allFalseApp "world".toList).input = "world".toList ∧
     (allFalseApp "world".toList).mask = allFalseMask ∧
     (allFalseApp "world".toList).current_guess < 5 ∧
     (allFalseApp "world".toList).guesses.length = 5) ∧
    (submit (allFalseApp "world".toList)).state = GameState.Won ∧
    ((submit (allFalseApp "world".toList)).guesses.getD
      (allFalseApp "world".toList).current_guess
      (Row.new allFalseMask 0)).char_states = List.replicate 5 CharacterState.Correct :=
  ⟨by decide,
   c4_guess_equals_secret_wins (allFalseApp "world".toList) "world".toList (by decide)
     (by decide) (by decide) (by decide) (by decide) (by decide) (by decide)⟩

/-- Claim C5: the keyboard letter state is monotonic in Correct: in any
reachable state, a letter whose keyboard state is Correct still reads Correct
after any further input event, in particular after any accepted submission. -/
theorem c5_keyboard_correct_monotonic (s : App) (h : Reachable s) (c : Char)
    (hc : s.get_letter_state c = CharacterState.Correct) (e : InputEvent) :
    (step s e).get_letter_state c = CharacterState.Correct := by
  cases e with
  | enter =>
      show (submit s).get_letter_state c = _
      cases hv : valid_guess s.input with
      | false =>
          rw [submit_of_invalid hv]
          exact hc
      | true =>
          rw [App.get_letter_state, submit_key_status_of_valid hv]
          exact kbPass2_correct_mono _ _ _ _ _ _ (kbPass1_correct_mono _ _ _ _ _ _ hc)
  | char c2 =>
      simp only [step]
      split
      · split
        · exact hc
        · exact hc
      · exact hc
  | backspace => exact hc
  | esc => exact hc
  | other => exact hc

/-- Witness for claim C5: after submitting "wormy" against "world" the
keyboard letter w is Correct, and it is still Correct after the next
submission ("aaaaa"). -/
theorem c5_witness :
    (runEvents App.default (typeWord "wormy".toList ++
      [InputEvent.char 'a', InputEvent.char 'a', InputEvent.char 'a', InputEvent.char 'a',
       InputEvent.char 'a'])).get_letter_state 'w' = CharacterState.Correct ∧
    (step (runEvents App.default (typeWord "wormy".toList ++
      [InputEvent.char 'a', InputEvent.char 'a', InputEvent.char 'a', InputEvent.char 'a',
       InputEvent.char 'a'])) InputEvent.enter).get_letter_state 'w' =
      CharacterState.Correct :=
  ⟨by decide,
   c5_keyboard_correct_monotonic _
     (reachable_runEvents App.default _ Reachable.init) 'w' (by decide) InputEvent.enter⟩

/-- Claim C6: masked positions never contribute to keyboard aggregation: on an
accepted submission, a letter that does not occur at any unmasked position of
the buffer keeps its keyboard entry unchanged. -/
theorem c6_masked_positions_never_touch_keyboard (s : App) (h : Reachable s) (c : Char)
    (hacc : valid_guess s.input = true)
    (hocc : ∀ i, i < s.input.length → s.mask.get_mask s.current_guess i = false →
      s.input.getD i ' ' ≠ c) :
    (step s InputEvent.enter).get_letter_state c = s.get_letter_state c := by
  show (submit s).get_letter_state c = _
  rw [App.get_letter_state, submit_key_status_of_valid hacc]
  rw [kbPass2_frame _ _ _ _ _ _ hocc, kbPass1_frame _ _ _ _ _ _ hocc]
  rfl

/-- Witness for claim C6: typing "world" against secret "world" under the
default mask, the letter r occurs only at the masked position 2, and its
keyboard entry is unchanged (Unknown) by the submission. -/
theorem c6_witness :
    valid_guess (runEvents App.default [InputEvent.char 'w', InputEvent.char 'o',
      InputEvent.char 'r', InputEvent.char 'l', InputEvent.char 'd']).input = true ∧
    (runEvents App.default [InputEvent.char 'w', InputEvent.char 'o', InputEvent.char 'r',
      InputEvent.char 'l', InputEvent.char 'd']).get_letter_state 'r' =
      CharacterState.Unknown ∧
    (step (runEvents App.default [InputEvent.char 'w', InputEvent.char 'o', InputEvent.char 'r',
      InputEvent.char 'l', InputEvent.char 'd']) InputEvent.enter).get_letter_state 'r' =
      (runEvents App.default [InputEvent.char 'w', InputEvent.char 'o', InputEvent.char 'r',
      InputEvent.char 'l', InputEvent.char 'd']).get_letter_state 'r' :=
  ⟨by decide, by decide,
   c6_masked_positions_never_touch_keyboard _
     (reachable_runEvents App.default _ Reachable.init) 'r' (by decide) (by decide)⟩

/-- Claim C7: submitting while the buffer's byte length differs from 5 is an
atomic silent no-op: the whole state (attempt index, guesses, keyboard,
outcome and the buffer itself) is unchanged and nothing is signalled. -/
theorem c7_invalid_submit_noop (s : App) (h : utf8Len s.input ≠ 5) :
    step s InputEvent.enter = s := by
  have hv : valid_guess s.input = false := by simp [valid_guess, h]
  show submit s = s
  exact submit_of_invalid hv

/-- Witness for claim C7 at the initial state, whose buffer is empty. -/
theorem c7_witness :
    utf8Len App.default.input ≠ 5 ∧ step App.default InputEvent.enter = App.default :=
  ⟨by decide, c7_invalid_submit_noop App.default (by decide)⟩

/-- Claim C8: Won and Lost are absorbing: in any reachable state whose outcome
is Won or Lost, submit, backspace and any character other than the quit key q
leave the state unchanged (quit and the Esc cancel signal only exit). -/
theorem c8_terminal_states_absorbing (s : App) (h : Reachable s)
    (hend : s.state = GameState.Won ∨ ∃ w, s.state = GameState.Lost w) :
    step s InputEvent.enter = s ∧ step s InputEvent.backspace = s ∧
    (∀ c, c ≠ 'q' → step s (InputEvent.char c) = s) := by
  obtain ⟨h1, h2, h3, h4, h5⟩ := reachable_inv h
  have hni : s.state ≠ GameState.InProgress := by
    rcases hend with hw | ⟨w, hl⟩
    · simp [hw]
    · simp [hl]
  have hinp : s.input = [] := h3 hni
  refine ⟨?_, ?_, ?_⟩
  · show submit s = s
    apply submit_of_invalid
    rw [hinp]
    rfl
  · show { s with input := s.input.dropLast } = s
    have e : s.input.dropLast = s.input := by
      rw [hinp]
      rfl
    rw [e]
  · intro c hc
    simp only [step]
    rw [if_neg hni]

/-- Witness for claim C8 at the Won state reached by typing "world". -/
theorem c8_witness :
    (runEvents App.default (typeWord "world".toList)).state = GameState.Won ∧
    (step (runEvents App.default (typeWord "world".toList)) InputEvent.enter =
       runEvents App.default (typeWord "world".toList) ∧
     step (runEvents App.default (typeWord "world".toList)) InputEvent.backspace =
       runEvents App.default (typeWord "world".toList) ∧
     (∀ c, c ≠ 'q' →
       step (runEvents App.default (typeWord "world".toList)) (InputEvent.char c) =
         runEvents App.default (typeWord "world".toList))) :=
  ⟨by decide,
   c8_terminal_states_absorbing _ (reachable_runEvents App.default _ Reachable.init)
     (Or.inl (by decide))⟩

/-- Claim C9: in every reachable state the guesses list has length 5, the
buffer is empty whenever the outcome is not InProgress, and whenever the
buffer passes the submission length check the attempt index is at most 4, so
the row indexing guesses[current_guess] and every mask lookup
get_mask(current_guess, i) with i below 5 performed during that submission
are in bounds. -/
theorem c9_reachable_bounds (s : App) (h : Reachable s) :
    s.guesses.length = 5 ∧
    (s.state ≠ GameState.InProgress → s.input = []) ∧
    (valid_guess s.input = true →
      s.current_guess ≤ 4 ∧ s.current_guess < s.guesses.length ∧
      ∀ i, i < 5 → s.current_guess * 5 + i < s.mask.items.length) := by
  obtain ⟨h1, h2, h3, h4, h5⟩ := reachable_inv h
  refine ⟨h1, h3, fun hv => ?_⟩
  have hip : s.state = GameState.InProgress := by
    by_contra hni
    exact valid_input_ne_nil hv (h3 hni)
  have hcg : s.current_guess < 5 := by
    by_contra hge
    exact absurd hip (h4 (Nat.le_of_not_lt hge))
  refine ⟨by omega, by omega, fun i hi => ?_⟩
  rw [h5]
  have hm : Mask.default.items.length = 25 := rfl
  omega

/-- Witness for claim C9 at the reachable state with the full buffer
"crane". -/
theorem c9_witness :
    valid_guess (runEvents App.default [InputEvent.char 'c', InputEvent.char 'r',
      InputEvent.char 'a', InputEvent.char 'n', InputEvent.char 'e']).input = true ∧
    ((runEvents App.default [InputEvent.char 'c', InputEvent.char 'r', InputEvent.char 'a',
        InputEvent.char 'n', InputEvent.char 'e']).guesses.length = 5 ∧
     (runEvents App.default [InputEvent.char 'c', InputEvent.char 'r', InputEvent.char 'a',
        InputEvent.char 'n', InputEvent.char 'e']).current_guess ≤ 4) :=
  ⟨by decide,
   (c9_reachable_bounds _ (reachable_runEvents App.default _ Reachable.init)).1,
   ((c9_reachable_bounds _ (reachable_runEvents App.default _ Reachable.init)).2.2
     (by decide)).1⟩

/-- Claim C10: submission eligibility and input gating use the UTF-8 byte
length, not the character count: typing a, b, c, then the two-byte character
é gives a buffer of 4 characters and 5 bytes that submits successfully
(attempt index becomes 1); typing a, b, c, d, then é gives a buffer of 5
characters and 6 bytes on which submit is a no-op, and after a backspace and
a one-byte character the submission goes through. -/
theorem c10_byte_length_not_char_count :
    ((runEvents App.default [InputEvent.char 'a', InputEvent.char 'b', InputEvent.char 'c',
        InputEvent.char 'é']).input.length = 4 ∧
     utf8Len (runEvents App.default [InputEvent.char 'a', InputEvent.char 'b',
        InputEvent.char 'c', InputEvent.char 'é']).input = 5 ∧
     (runEvents App.default [InputEvent.char 'a', InputEvent.char 'b', InputEvent.char 'c',
        InputEvent.char 'é', InputEvent.enter]).current_guess = 1) ∧
    ((runEvents App.default [InputEvent.char 'a', InputEvent.char 'b', InputEvent.char 'c',
        InputEvent.char 'd', InputEvent.char 'é']).input.length = 5 ∧
     utf8Len (runEvents App.default [InputEvent.char 'a', InputEvent.char 'b',
        InputEvent.char 'c', InputEvent.char 'd', InputEvent.char 'é']).input = 6 ∧
     step (runEvents App.default [InputEvent.char 'a', InputEvent.char 'b', InputEvent.char 'c',
        InputEvent.char 'd', InputEvent.char 'é']) InputEvent.enter =
       runEvents App.default [InputEvent.char 'a', InputEvent.char 'b', InputEvent.char 'c',
        InputEvent.char 'd', InputEvent.char 'é'] ∧
     (runEvents App.default [InputEvent.char 'a', InputEvent.char 'b', InputEvent.char 'c',
        InputEvent.char 'd', InputEvent.char 'é', InputEvent.backspace, InputEvent.char 'e',
        InputEvent.enter]).current_guess = 1) := by decide
